import Mathlib

/-!
Shallow embedding of the rusty-chip8 CHIP-8 core (src/chip8/src/lib.rs).

Machine integers are modelled as `Nat` with explicit `% 2^w` where the
source's `u8`/`u16` arithmetic can wrap or truncate.  The register file,
call stack and RAM are modelled as total functions `Nat → Nat`; in the
source they are fixed arrays (`[u8; 16]`, `[u16; 16]`, `[u8; 4096]`), so
theorems about them carry the corresponding index bounds as hypotheses.
The `todo!()` arm of `CPU::execute` (a Rust panic) is modelled as the
`Except.error` branch carrying the undecoded instruction.
-/

namespace Chip8

/-- Pointwise update of a function, modelling a single array store. -/
def upd (f : Nat → Nat) (k v : Nat) : Nat → Nat :=
  fun a => if a = k then v else f a

/-- RAM_SIZE in lib.rs: 0x1000 bytes. -/
def RAM_SIZE : Nat := 0x1000

/-- HEAD_OF_PROGRAM in lib.rs: programs load at 0x200. -/
def HEAD_OF_PROGRAM : Nat := 0x200

/-- Decoded instruction: four 4-bit fields (struct Inst in lib.rs). -/
structure Inst where
  n0 : Nat
  n1 : Nat
  n2 : Nat
  n3 : Nat
deriving DecidableEq

/-- Inst::from(&[u8; 2]): nibble split `(b0 >> 4, b0 & 0x0f, b1 >> 4, b1 & 0x0f)`. -/
def Inst.from2 (b0 b1 : Nat) : Inst :=
  ⟨b0 / 16, b0 % 16, b1 / 16, b1 % 16⟩

/-- addr in lib.rs: `((n1 as u16) << 8) + ((n2 as u16) << 4) + n3 as u16`
(called only on decoded nibbles, so the u16 sum cannot wrap). -/
def addr (n1 n2 n3 : Nat) : Nat :=
  n1 * 256 + n2 * 16 + n3

/-- val in lib.rs: `(k1 << 4) + k2` in u8 arithmetic (the shift truncates
to 8 bits; on decoded nibbles the sum stays below 256). -/
def val (k1 k2 : Nat) : Nat :=
  ((k1 * 16) % 256 + k2) % 256

/-- CPU + Ram state (struct CPU and struct Ram in lib.rs).
`v`, `stack`, `ram` model the arrays `[u8; 16]`, `[u16; 16]`, `[u8; 4096]`;
`dt`/`st` are the bytes stored inside the two timers. -/
structure Machine where
  v : Nat → Nat
  i : Nat
  pc : Nat
  sp : Nat
  stack : Nat → Nat
  ram : Nat → Nat
  dt : Nat
  st : Nat

/-- External inputs consumed during one execute step: the value returned by
`rand::random`, the keyboard's `is_pressed` map and `wait` result, and the
collision flag returned by `Display::draw`. -/
structure Ext where
  rnd : Nat
  pressed : Nat → Bool
  key : Nat
  collide : Bool

/-- Result of one execute step: the new machine state plus how many times
`Display::clear` was called during the step. -/
structure StepOut where
  m : Machine
  clears : Nat

/-- enum Control in lib.rs. -/
inductive Control
  | Next
  | Skip
  | Jump (t : Nat)

/-- The `match ctl` retire step at the end of CPU::execute:
Next advances pc by 2, Skip by 4, Jump sets it. -/
def applyCtl (m : Machine) : Control → Machine
  | .Next => { m with pc := m.pc + 2 }
  | .Skip => { m with pc := m.pc + 4 }
  | .Jump t => { m with pc := t }

/-- Package an arm's state mutation, clear count and control effect. -/
def finish (c : Nat) (m : Machine) (ctl : Control) : StepOut :=
  ⟨applyCtl m ctl, c⟩

/-- LD [I], Vx body: `for i in 0..x+1 { ram.buf[self.i + i] = self.v[i] }`. -/
def storeRegs (ram : Nat → Nat) (v : Nat → Nat) (base : Nat) : Nat → (Nat → Nat)
  | 0 => ram
  | k + 1 => upd (storeRegs ram v base k) (base + k) (v k)

/-- LD Vx, [I] body: `for i in 0..x+1 { self.v[i] = ram.buf[self.i + i] }`. -/
def loadRegs (v : Nat → Nat) (ram : Nat → Nat) (base : Nat) : Nat → (Nat → Nat)
  | 0 => v
  | k + 1 => upd (loadRegs v ram base k) k (ram (base + k))

/-- Arms of CPU::execute whose leading nibble is 0:
`Inst(0,0,0xe,0)` is CLS (one Display::clear call), `Inst(0,0,0xe,0xe)` is
RET, and any other `Inst(0,n1,n2,n3)` jumps to `addr(n1,n2,n3)`.
The source's first-match patterns are rendered as an if-chain. -/
def exec0 (m : Machine) (n1 n2 n3 : Nat) : Except Inst StepOut :=
  if n1 = 0 ∧ n2 = 0xe ∧ n3 = 0 then
    .ok (finish 1 m Control.Next)
  else if n1 = 0 ∧ n2 = 0xe ∧ n3 = 0xe then
    .ok (finish 0 { m with sp := m.sp - 1 } (Control.Jump (m.stack (m.sp - 1) + 2)))
  else
    .ok (finish 0 m (Control.Jump (addr n1 n2 n3)))

/-- Arms of CPU::execute whose leading nibble is 8 (register-register ALU
group, discriminated on the last nibble); last nibbles matching no arm
fall to the `todo!` arm.  In the shift arms the flag write
`self.v[0xF] = ...` happens first, and the shifted value is then read
from the updated register file, exactly as in the source. -/
def exec8 (m : Machine) (x y n3 : Nat) : Except Inst StepOut :=
  if n3 = 0 then
    .ok (finish 0 { m with v := upd m.v x (m.v y) } Control.Next)
  else if n3 = 1 then
    .ok (finish 0 { m with v := upd m.v x (m.v x ||| m.v y) } Control.Next)
  else if n3 = 2 then
    .ok (finish 0 { m with v := upd m.v x (m.v x &&& m.v y) } Control.Next)
  else if n3 = 3 then
    .ok (finish 0 { m with v := upd m.v x (m.v x ^^^ m.v y) } Control.Next)
  else if n3 = 4 then
    let v1 := upd m.v x ((m.v x + m.v y) % 256)
    let v2 := upd v1 0xF (if 256 ≤ m.v x + m.v y then 1 else 0)
    .ok (finish 0 { m with v := v2 } Control.Next)
  else if n3 = 5 then
    let v1 := upd m.v x (if m.v y ≤ m.v x then m.v x - m.v y else 256 + m.v x - m.v y)
    let v2 := upd v1 0xF (if m.v y ≤ m.v x then 1 else 0)
    .ok (finish 0 { m with v := v2 } Control.Next)
  else if n3 = 6 then
    let v1 := upd m.v 0xF (m.v x % 2)
    let v2 := upd v1 x (v1 x / 2)
    .ok (finish 0 { m with v := v2 } Control.Next)
  else if n3 = 7 then
    let v1 := upd m.v x (if m.v x ≤ m.v y then m.v y - m.v x else 256 + m.v y - m.v x)
    let v2 := upd v1 0xF (if m.v x ≤ m.v y then 1 else 0)
    .ok (finish 0 { m with v := v2 } Control.Next)
  else if n3 = 0xE then
    let v1 := upd m.v 0xF (m.v x / 128 % 2)
    let v2 := upd v1 x (v1 x * 2 % 256)
    .ok (finish 0 { m with v := v2 } Control.Next)
  else .error ⟨8, x, y, n3⟩

/-- Arms of CPU::execute whose leading nibble is 0xE (key-state skips);
unmatched trailing nibbles fall to the `todo!` arm. -/
def execE (m : Machine) (ex : Ext) (x n2 n3 : Nat) : Except Inst StepOut :=
  if n2 = 9 ∧ n3 = 0xE then
    .ok (finish 0 m (if ex.pressed (m.v x) then Control.Skip else Control.Next))
  else if n2 = 0xA ∧ n3 = 1 then
    .ok (finish 0 m (if !(ex.pressed (m.v x)) then Control.Skip else Control.Next))
  else .error ⟨0xE, x, n2, n3⟩

/-- Arms of CPU::execute whose leading nibble is 0xF (timer, keyboard,
index-register and bulk-memory group); unmatched trailing nibble pairs
fall to the `todo!` arm. -/
def execF (m : Machine) (ex : Ext) (x n2 n3 : Nat) : Except Inst StepOut :=
  if n2 = 0 ∧ n3 = 7 then
    .ok (finish 0 { m with v := upd m.v x m.dt } Control.Next)
  else if n2 = 0 ∧ n3 = 0xA then
    .ok (finish 0 { m with v := upd m.v x ex.key } Control.Next)
  else if n2 = 1 ∧ n3 = 5 then
    .ok (finish 0 { m with dt := m.v x } Control.Next)
  else if n2 = 1 ∧ n3 = 8 then
    .ok (finish 0 { m with st := m.v x } Control.Next)
  else if n2 = 1 ∧ n3 = 0xE then
    .ok (finish 0 { m with i := (m.i + m.v x) % 65536 } Control.Next)
  else if n2 = 2 ∧ n3 = 9 then
    .ok (finish 0 { m with i := (m.v x * 5) % 256 } Control.Next)
  else if n2 = 3 ∧ n3 = 3 then
    let r1 := upd m.ram (m.i + 2) (m.v x % 10)
    let r2 := upd r1 (m.i + 1) (m.v x / 10 % 10)
    let r3 := upd r2 m.i (m.v x / 10 / 10 % 10)
    .ok (finish 0 { m with ram := r3 } Control.Next)
  else if n2 = 5 ∧ n3 = 5 then
    .ok (finish 0 { m with ram := storeRegs m.ram m.v m.i (x + 1) } Control.Next)
  else if n2 = 6 ∧ n3 = 5 then
    .ok (finish 0 { m with v := loadRegs m.v m.ram m.i (x + 1) } Control.Next)
  else .error ⟨0xF, x, n2, n3⟩

/-- CPU::execute from lib.rs.  The source's single first-match `match op`
is rendered as a dispatch on the leading nibble, with each group keeping
the source arms in order (the groups with several sub-arms live in
exec0/exec8/execE/execF).  Each arm produces the mutated state, the
number of Display::clear calls, and the Control effect, which `finish`
retires into the program counter.  The default `todo!(op)` arm — a Rust
panic identifying the instruction — is the `Except.error op` branch. -/
def execute (m : Machine) (ex : Ext) (op : Inst) : Except Inst StepOut :=
  if op.n0 = 0 then exec0 m op.n1 op.n2 op.n3
  else if op.n0 = 1 then
    .ok (finish 0 m (Control.Jump (addr op.n1 op.n2 op.n3)))
  else if op.n0 = 2 then
    .ok (finish 0 { m with stack := upd m.stack m.sp m.pc, sp := m.sp + 1 } (Control.Jump (addr op.n1 op.n2 op.n3)))
  else if op.n0 = 3 then
    .ok (finish 0 m (if m.v op.n1 = val op.n2 op.n3 then Control.Skip else Control.Next))
  else if op.n0 = 4 then
    .ok (finish 0 m (if m.v op.n1 ≠ val op.n2 op.n3 then Control.Skip else Control.Next))
  else if op.n0 = 5 ∧ op.n3 = 0 then
    .ok (finish 0 m (if m.v op.n1 = m.v op.n2 then Control.Skip else Control.Next))
  else if op.n0 = 6 then
    .ok (finish 0 { m with v := upd m.v op.n1 (val op.n2 op.n3) } Control.Next)
  else if op.n0 = 7 then
    .ok (finish 0 { m with v := upd m.v op.n1 ((m.v op.n1 + val op.n2 op.n3) % 256) } Control.Next)
  else if op.n0 = 8 then exec8 m op.n1 op.n2 op.n3
  else if op.n0 = 9 ∧ op.n3 = 0 then
    .ok (finish 0 m (if m.v op.n1 ≠ m.v op.n2 then Control.Skip else Control.Next))
  else if op.n0 = 0xA then
    .ok (finish 0 { m with i := addr op.n1 op.n2 op.n3 } Control.Next)
  else if op.n0 = 0xB then
    .ok (finish 0 m (Control.Jump (m.v 0 + addr op.n1 op.n2 op.n3)))
  else if op.n0 = 0xC then
    .ok (finish 0 { m with v := upd m.v op.n1 (ex.rnd &&& val op.n2 op.n3) } Control.Next)
  else if op.n0 = 0xD then
    .ok (finish 0 { m with v := upd m.v 0xF (if ex.collide then 1 else 0) } Control.Next)
  else if op.n0 = 0xE then execE m ex op.n1 op.n2 op.n3
  else if op.n0 = 0xF then execF m ex op.n1 op.n2 op.n3
  else .error op

/-- The machine after a successful execute step (identity on the panic
branch, which no confirmed claim exercises). -/
def afterExec (m : Machine) (ex : Ext) (op : Inst) : Machine :=
  match execute m ex op with
  | .ok o => o.m
  | .error _ => m

/-- CPU::cycle: fetch the two bytes at pc, decode, execute. -/
def cycle (m : Machine) (ex : Ext) : Except Inst StepOut :=
  execute m ex (Inst.from2 (m.ram m.pc) (m.ram (m.pc + 1)))

/-- The run-loop break condition in CPU::run:
`usize::from(self.pc + 1) >= RAM_SIZE`. -/
def runBreak (m : Machine) : Prop :=
  RAM_SIZE ≤ m.pc + 1

/-- One tick of the Timer background loop in lib.rs:
`if *val > 0 { *val -= 1 }`. -/
def Timer.tick (v : Nat) : Nat :=
  if 0 < v then v - 1 else v

/-- Ram::load via Read::read on `&mut buf[start..]`: a successful read
call hands back some count `n` of bytes (at most the stream length and at
most the remaining capacity) and copies the first `n` stream bytes into
the buffer starting at `start`.  `writeBytes` is that copy loop. -/
def writeBytes (buf : Nat → Nat) (start : Nat) : List Nat → (Nat → Nat)
  | [] => buf
  | b :: rest => writeBytes (upd buf start b) (start + 1) rest

/-- Ram::load (the Ok path): returns the copied count and the new buffer. -/
def ramLoad (buf : Nat → Nat) (start : Nat) (data : List Nat) (n : Nat) :
    Nat × (Nat → Nat) :=
  (n, writeBytes buf start (data.take n))

/-- Chip::load: Ram::load at HEAD_OF_PROGRAM. -/
def chipLoad (buf : Nat → Nat) (data : List Nat) (n : Nat) : Nat × (Nat → Nat) :=
  ramLoad buf HEAD_OF_PROGRAM data n

/-- The all-zero store used to build concrete machines. -/
def zeros : Nat → Nat := fun _ => 0

/-- A machine in its CPU::new state (pc at HEAD_OF_PROGRAM, all else zero),
with empty RAM. -/
def baseM : Machine :=
  ⟨zeros, 0, HEAD_OF_PROGRAM, 0, zeros, zeros, 0, 0⟩

/-- A fixed external-input bundle for steps that consult none of it. -/
def ext0 : Ext :=
  ⟨0, fun _ => false, 0, false⟩

/-- RAM holding only the two-instruction program `00E0` (CLS) at
0x200..0x201 and `1200` (JP 0x200) at 0x202..0x203, zero elsewhere. -/
def memClsJump : Nat → Nat := fun a =>
  if a = 0x201 then 0xE0 else if a = 0x202 then 0x12 else 0

/-- Fresh machine with the CLS/JP-to-self program loaded. -/
def mClsJump : Machine :=
  { baseM with ram := memClsJump }

/-- The same machine about to execute the jump at 0x202. -/
def mClsJump2 : Machine :=
  { mClsJump with pc := 0x202 }

/-- The run-loop trace of the CLS/jump program: iterate CPU::cycle from
the freshly loaded machine, accumulating the total number of
Display::clear calls.  (The panic branch never fires on this program;
it is mapped to a stutter.) -/
def traceClsJump : Nat → Machine × Nat
  | 0 => (mClsJump, 0)
  | n + 1 =>
      let p := traceClsJump n
      match cycle p.1 ext0 with
      | .ok o => (o.m, p.2 + o.clears)
      | .error _ => p

/-- Machine with V0 = 0xFF and V1 = 0x01 (add-overflow example). -/
def mAdd : Machine :=
  { baseM with v := upd (upd zeros 0 0xFF) 1 0x01 }

/-- Machine with V0 = 0x01 and V1 = 0x02 (subtract-borrow example). -/
def mSub : Machine :=
  { baseM with v := upd (upd zeros 0 0x01) 1 0x02 }

/-- Machine with VF = 0xFF and V0 = 0x01 (flag-register-as-operand case). -/
def mVF : Machine :=
  { baseM with v := upd (upd zeros 0xF 0xFF) 0 0x01 }

/-- Machine with VF = 1 only (shift-at-VF case). -/
def mVF1 : Machine :=
  { baseM with v := upd zeros 0xF 1 }

/-- Machine with V0 = 11, V1 = 22, V2 = 33 and I = 768. -/
def mIdx : Machine :=
  { baseM with v := upd (upd (upd zeros 0 11) 1 22) 2 33, i := 768 }

/-- Effect of one conditional-skip step: the program counter advances by 4
when the condition holds and by 2 otherwise, and the registers, stack,
RAM, stack pointer and index register are untouched. -/
def SkipStep (m : Machine) (ex : Ext) (op : Inst) (cond : Prop) [Decidable cond] : Prop :=
  ((afterExec m ex op).pc = if cond then m.pc + 4 else m.pc + 2) ∧
  (afterExec m ex op).v = m.v ∧
  (afterExec m ex op).stack = m.stack ∧
  (afterExec m ex op).ram = m.ram ∧
  (afterExec m ex op).sp = m.sp ∧
  (afterExec m ex op).i = m.i

theorem upd_self (f : Nat → Nat) (k v : Nat) : upd f k v k = v := by
  simp [upd]

theorem upd_other (f : Nat → Nat) (k v a : Nat) (h : a ≠ k) : upd f k v a = f a := by
  simp [upd, h]

theorem storeRegs_at (ram v : Nat → Nat) (base : Nat) :
    ∀ n j, j < n → storeRegs ram v base n (base + j) = v j := by
  intro n
  induction n with
  | zero => intro j hj; omega
  | succ k ih =>
      intro j hj
      by_cases h : j = k
      · subst h
        simp [storeRegs, upd]
      · have hj' : j < k := by omega
        have hne : base + j ≠ base + k := by omega
        simp [storeRegs, upd, hne, ih j hj']

theorem storeRegs_frame (ram v : Nat → Nat) (base : Nat) :
    ∀ n a, a < base ∨ base + n ≤ a → storeRegs ram v base n a = ram a := by
  intro n
  induction n with
  | zero => intro a _; rfl
  | succ k ih =>
      intro a ha
      have hne : a ≠ base + k := by omega
      simp [storeRegs, upd, hne]
      exact ih a (by omega)

theorem loadRegs_lt (v ram : Nat → Nat) (base : Nat) :
    ∀ n j, j < n → loadRegs v ram base n j = ram (base + j) := by
  intro n
  induction n with
  | zero => intro j hj; omega
  | succ k ih =>
      intro j hj
      by_cases h : j = k
      · subst h; simp [loadRegs, upd]
      · have hj' : j < k := by omega
        simp [loadRegs, upd, h, ih j hj']

theorem loadRegs_ge (v ram : Nat → Nat) (base : Nat) :
    ∀ n j, n ≤ j → loadRegs v ram base n j = v j := by
  intro n
  induction n with
  | zero => intro j _; rfl
  | succ k ih =>
      intro j hj
      have h : j ≠ k := by omega
      simp [loadRegs, upd, h]
      exact ih j (by omega)

theorem writeBytes_frame (l : List Nat) :
    ∀ buf : Nat → Nat, ∀ s a : Nat, a < s ∨ s + l.length ≤ a →
      writeBytes buf s l a = buf a := by
  induction l with
  | nil => intro buf s a _; rfl
  | cons b rest ih =>
      intro buf s a ha
      have hne : a ≠ s := by simp at ha ⊢; omega
      have := ih (upd buf s b) (s + 1) a (by simp at ha ⊢; omega)
      simp [writeBytes, this, upd, hne]

theorem writeBytes_get (l : List Nat) :
    ∀ buf : Nat → Nat, ∀ s j : Nat, j < l.length →
      writeBytes buf s l (s + j) = l.getD j 0 := by
  induction l with
  | nil => intro buf s j hj; simp at hj
  | cons b rest ih =>
      intro buf s j hj
      match j with
      | 0 =>
          have h0 : writeBytes (upd buf s b) (s + 1) rest s = upd buf s b s :=
            writeBytes_frame rest (upd buf s b) (s + 1) s (by omega)
          simp [writeBytes, h0, upd]
      | j' + 1 =>
          have harr : s + (j' + 1) = (s + 1) + j' := by omega
          have := ih (upd buf s b) (s + 1) j' (by simp at hj; omega)
          simp [writeBytes, harr, this]

theorem Timer.tick_iterate (v : Nat) : ∀ n, Timer.tick^[n] v = v - n := by
  intro n
  induction n with
  | zero => rfl
  | succ k ih =>
      rw [Function.iterate_succ_apply', ih, Timer.tick]
      split <;> omega

theorem cycle_cls : cycle mClsJump ext0 = .ok ⟨mClsJump2, 1⟩ := rfl

theorem cycle_jmp : cycle mClsJump2 ext0 = .ok ⟨mClsJump, 0⟩ := rfl

theorem traceClsJump_closed (n : Nat) :
    traceClsJump n = ((if n % 2 = 0 then mClsJump else mClsJump2), (n + 1) / 2) := by
  induction n with
  | zero => rfl
  | succ n ih =>
      simp only [traceClsJump]
      rw [ih]
      by_cases h : n % 2 = 0
      · rw [if_pos h]
        simp only [cycle_cls]
        rw [if_neg (by omega)]
        exact Prod.ext rfl (by omega)
      · rw [if_neg h]
        simp only [cycle_jmp]
        rw [if_pos (by omega)]
        exact Prod.ext rfl (by omega)

/-- C1 (amended): for all register indices x ≠ 0xF and y, ADD Vx, Vy
(8xy4) sets Vx to (Vx + Vy) mod 256 and SUB Vx, Vy (8xy5) sets Vx to
(Vx - Vy) mod 256; for every x (0xF included) VF afterwards holds the
carry flag (1 iff the sum exceeded 255) resp. the no-borrow flag
(1 iff old Vx ≥ old Vy).  When x = 0xF the later flag write overwrites
the wrapped result, so the Vx clauses are restricted to x ≠ 0xF. -/
theorem addSub_flag_semantics (m : Machine) (ex : Ext) (x y : Nat)
    (hx : x < 16) (hy : y < 16) (hvx : m.v x < 256) (hvy : m.v y < 256) :
    (x ≠ 0xF → (afterExec m ex ⟨8, x, y, 4⟩).v x = (m.v x + m.v y) % 256) ∧
    ((afterExec m ex ⟨8, x, y, 4⟩).v 0xF = if 256 ≤ m.v x + m.v y then 1 else 0) ∧
    (x ≠ 0xF →
      ((afterExec m ex ⟨8, x, y, 5⟩).v x : Int) = ((m.v x : Int) - (m.v y : Int)) % 256) ∧
    ((afterExec m ex ⟨8, x, y, 5⟩).v 0xF = if m.v y ≤ m.v x then 1 else 0) := by
  refine ⟨?_, ?_, ?_, ?_⟩
  · intro hxF
    simp [afterExec, execute, exec8, finish, applyCtl, upd, hxF]
  · simp [afterExec, execute, exec8, finish, applyCtl, upd]
  · intro hxF
    simp only [afterExec, execute, exec8, finish, applyCtl]
    norm_num [upd, hxF]
    by_cases hle : m.v y ≤ m.v x
    · rw [if_pos hle]
      omega
    · rw [if_neg hle]
      omega
  · simp [afterExec, execute, exec8, finish, applyCtl, upd]

/-- C1 counterexample: with VF = 0xFF and V0 = 0x01, executing ADD VF, V0
(8F04) leaves VF = 1 (the carry flag), not (VF + V0) mod 256 = 0 as the
claim, quantified over every register pair, would require. -/
theorem addSub_sum_clobbered_at_VF :
    (afterExec mVF ext0 ⟨8, 15, 0, 4⟩).v 15 ≠ (mVF.v 15 + mVF.v 0) % 256 := by
  decide

/-- C1 witness: 0xFF + 0x01 gives 0x00 with carry flag 1, and
0x01 - 0x02 gives 0xFF (-1 mod 256) with borrow flag 0. -/
theorem addSub_flag_semantics_witness :
    ((afterExec mAdd ext0 ⟨8, 0, 1, 4⟩).v 0 = (mAdd.v 0 + mAdd.v 1) % 256) ∧
    ((afterExec mAdd ext0 ⟨8, 0, 1, 4⟩).v 0xF = if 256 ≤ mAdd.v 0 + mAdd.v 1 then 1 else 0) ∧
    (((afterExec mSub ext0 ⟨8, 0, 1, 5⟩).v 0 : Int) = ((mSub.v 0 : Int) - (mSub.v 1 : Int)) % 256) ∧
    ((afterExec mSub ext0 ⟨8, 0, 1, 5⟩).v 0xF = if mSub.v 1 ≤ mSub.v 0 then 1 else 0) :=
  ⟨(addSub_flag_semantics mAdd ext0 0 1 (by decide) (by decide) (by decide) (by decide)).1
      (by decide),
   (addSub_flag_semantics mAdd ext0 0 1 (by decide) (by decide) (by decide) (by decide)).2.1,
   (addSub_flag_semantics mSub ext0 0 1 (by decide) (by decide) (by decide) (by decide)).2.2.1
      (by decide),
   (addSub_flag_semantics mSub ext0 0 1 (by decide) (by decide) (by decide) (by decide)).2.2.2⟩

/-- C2: CALL nnn at address a pushes a itself (not a + 2) into stack slot
SP0 and sets SP to SP0 + 1; a RET executed from any state with SP = SP0 + 1
and that slot still holding a restores SP = SP0 and resumes at a + 2.
Quantifying over all SP0 < 16 covers every nesting depth up to 16. -/
theorem call_then_ret (m : Machine) (ex1 ex2 : Ext) (n1 n2 n3 : Nat)
    (hsp : m.sp < 16) :
    ((afterExec m ex1 ⟨2, n1, n2, n3⟩).sp = m.sp + 1) ∧
    ((afterExec m ex1 ⟨2, n1, n2, n3⟩).stack m.sp = m.pc) ∧
    ((afterExec m ex1 ⟨2, n1, n2, n3⟩).pc = addr n1 n2 n3) ∧
    (∀ m2 : Machine, m2.sp = m.sp + 1 → m2.stack m.sp = m.pc →
      ((afterExec m2 ex2 ⟨0, 0, 0xE, 0xE⟩).sp = m.sp) ∧
      ((afterExec m2 ex2 ⟨0, 0, 0xE, 0xE⟩).pc = m.pc + 2)) := by
  refine ⟨?_, ?_, ?_, ?_⟩
  · simp [afterExec, execute, finish, applyCtl]
  · simp [afterExec, execute, finish, applyCtl, upd]
  · simp [afterExec, execute, finish, applyCtl]
  · intro m2 h1 h2
    constructor
    · simp [afterExec, execute, exec0, finish, applyCtl, h1]
    · simp [afterExec, execute, exec0, finish, applyCtl, h1, h2]

/-- C2 witness: from the fresh machine (PC = 0x200, SP = 0), CALL 0x300
then RET leaves SP back at 0 and PC at 0x202 = call address + 2. -/
theorem call_then_ret_witness :
    ((afterExec baseM ext0 ⟨2, 3, 0, 0⟩).sp = baseM.sp + 1) ∧
    ((afterExec (afterExec baseM ext0 ⟨2, 3, 0, 0⟩) ext0 ⟨0, 0, 0xE, 0xE⟩).sp = baseM.sp) ∧
    ((afterExec (afterExec baseM ext0 ⟨2, 3, 0, 0⟩) ext0 ⟨0, 0, 0xE, 0xE⟩).pc = baseM.pc + 2) := by
  have h := call_then_ret baseM ext0 ext0 3 0 0 (by decide)
  have hr := h.2.2.2 (afterExec baseM ext0 ⟨2, 3, 0, 0⟩) h.1 h.2.1
  exact ⟨h.1, hr.1, hr.2⟩

/-- C3: instruction words matching no arm of CPU::execute reach the
default arm, which signals the fatal decode condition carrying the raw
nibble fields (three representative undefined words shown).  In the
source this arm is `todo!(op)` — a panic that aborts the process — so the
error is not returned as a recoverable result; see the claim record. -/
theorem undecodable_words_are_fatal :
    execute baseM ext0 ⟨8, 0, 0, 8⟩ = .error ⟨8, 0, 0, 8⟩ ∧
    execute baseM ext0 ⟨5, 1, 2, 3⟩ = .error ⟨5, 1, 2, 3⟩ ∧
    execute baseM ext0 ⟨0xF, 0, 9, 9⟩ = .error ⟨0xF, 0, 9, 9⟩ :=
  ⟨rfl, rfl, rfl⟩

/-- C4: Inst::from is total — every byte pair yields exactly the nibble
4-tuple (b0 >> 4, b0 & 0xF, b1 >> 4, b1 & 0xF), each field below 16 — and
the interpreter's val/addr recomposition recovers the original bytes
(val on each nibble pair) and the 12-bit address (addr on the low three
nibbles). -/
theorem decode_total_roundtrip (b0 b1 : Nat) (h0 : b0 < 256) (h1 : b1 < 256) :
    ((Inst.from2 b0 b1).n0 < 16 ∧ (Inst.from2 b0 b1).n1 < 16 ∧
     (Inst.from2 b0 b1).n2 < 16 ∧ (Inst.from2 b0 b1).n3 < 16) ∧
    (val (Inst.from2 b0 b1).n0 (Inst.from2 b0 b1).n1 = b0) ∧
    (val (Inst.from2 b0 b1).n2 (Inst.from2 b0 b1).n3 = b1) ∧
    (addr (Inst.from2 b0 b1).n1 (Inst.from2 b0 b1).n2 (Inst.from2 b0 b1).n3 =
      (b0 % 16) * 256 + b1) := by
  simp only [Inst.from2, val, addr]
  refine ⟨⟨?_, ?_, ?_, ?_⟩, ?_, ?_, ?_⟩ <;> omega

/-- C4 witness: decoding the word 0xABCD gives nibbles (A, B, C, D) and
recomposition recovers both bytes and the address 0xBCD. -/
theorem decode_total_roundtrip_witness :
    (val (Inst.from2 0xAB 0xCD).n0 (Inst.from2 0xAB 0xCD).n1 = 0xAB) ∧
    (val (Inst.from2 0xAB 0xCD).n2 (Inst.from2 0xAB 0xCD).n3 = 0xCD) ∧
    (addr (Inst.from2 0xAB 0xCD).n1 (Inst.from2 0xAB 0xCD).n2 (Inst.from2 0xAB 0xCD).n3 =
      0xB * 256 + 0xCD) :=
  ⟨(decode_total_roundtrip 0xAB 0xCD (by decide) (by decide)).2.1,
   (decode_total_roundtrip 0xAB 0xCD (by decide) (by decide)).2.2.1,
   (decode_total_roundtrip 0xAB 0xCD (by decide) (by decide)).2.2.2⟩

/-- C5: each conditional skip (3xkk, 4xkk, 5xy0, 9xy0) advances PC by 4
exactly when its condition holds and by 2 otherwise, leaving registers,
stack, RAM, SP and I unchanged, for all register contents. -/
theorem skip_step_semantics (m : Machine) (ex : Ext) (x y k1 k2 : Nat)
    (hx : x < 16) (hy : y < 16) (hk1 : k1 < 16) (hk2 : k2 < 16) :
    SkipStep m ex ⟨3, x, k1, k2⟩ (m.v x = val k1 k2) ∧
    SkipStep m ex ⟨4, x, k1, k2⟩ (m.v x ≠ val k1 k2) ∧
    SkipStep m ex ⟨5, x, y, 0⟩ (m.v x = m.v y) ∧
    SkipStep m ex ⟨9, x, y, 0⟩ (m.v x ≠ m.v y) := by
  refine ⟨?_, ?_, ?_, ?_⟩
  · by_cases h : m.v x = val k1 k2 <;>
      simp [SkipStep, afterExec, execute, finish, applyCtl, h]
  · by_cases h : m.v x = val k1 k2 <;>
      simp [SkipStep, afterExec, execute, finish, applyCtl, h]
  · by_cases h : m.v x = m.v y <;>
      simp [SkipStep, afterExec, execute, finish, applyCtl, h]
  · by_cases h : m.v x = m.v y <;>
      simp [SkipStep, afterExec, execute, finish, applyCtl, h]

/-- C5 witness: on the fresh machine, SE V0, 0x00 (condition holds) skips
and SNE V0, 0x00 (condition fails) steps, with full frame preservation. -/
theorem skip_step_semantics_witness :
    SkipStep baseM ext0 ⟨3, 0, 0, 0⟩ (baseM.v 0 = val 0 0) ∧
    SkipStep baseM ext0 ⟨4, 0, 0, 0⟩ (baseM.v 0 ≠ val 0 0) ∧
    SkipStep baseM ext0 ⟨5, 0, 1, 0⟩ (baseM.v 0 = baseM.v 1) ∧
    SkipStep baseM ext0 ⟨9, 0, 1, 0⟩ (baseM.v 0 ≠ baseM.v 1) :=
  skip_step_semantics baseM ext0 0 1 0 0 (by decide) (by decide) (by decide) (by decide)

/-- C6 (amended): for every register index x ≠ 0xF, SHR Vx (8xy6) sets VF
to the least significant bit of the old Vx and Vx to Vx >> 1, and SHL Vx
(8xyE) sets VF to the most significant bit of the old Vx and Vx to
(Vx << 1) mod 256, VF being fully overwritten in both cases.  When
x = 0xF the flag is written first and the shift then reads the updated
register, so neither stated postcondition holds there. -/
theorem shift_flag_semantics (m : Machine) (ex : Ext) (x y : Nat)
    (hx : x < 16) (hxF : x ≠ 0xF) (hv : m.v x < 256) :
    ((afterExec m ex ⟨8, x, y, 6⟩).v 0xF = m.v x % 2) ∧
    ((afterExec m ex ⟨8, x, y, 6⟩).v x = m.v x / 2) ∧
    ((afterExec m ex ⟨8, x, y, 0xE⟩).v 0xF = m.v x / 128) ∧
    ((afterExec m ex ⟨8, x, y, 0xE⟩).v x = m.v x * 2 % 256) := by
  refine ⟨?_, ?_, ?_, ?_⟩
  · simp [afterExec, execute, exec8, finish, applyCtl, upd, hxF, Ne.symm hxF]
  · simp [afterExec, execute, exec8, finish, applyCtl, upd, hxF, Ne.symm hxF]
  · simp [afterExec, execute, exec8, finish, applyCtl, upd, hxF, Ne.symm hxF]
    omega
  · simp [afterExec, execute, exec8, finish, applyCtl, upd, hxF, Ne.symm hxF]

/-- C6 counterexample: with VF = 1, executing SHR VF (8F06) leaves VF = 0
(the just-written flag shifted right), not the old VF's least significant
bit 1 as the claim, which includes x = 0xF, would require. -/
theorem shift_at_VF_loses_flag :
    (afterExec mVF1 ext0 ⟨8, 15, 0, 6⟩).v 15 ≠ mVF1.v 15 % 2 := by
  decide

/-- C6 witness: with V0 = 0xFF, SHR gives VF = 1 and V0 = 0x7F, SHL gives
VF = 1 and V0 = 0xFE. -/
theorem shift_flag_semantics_witness :
    ((afterExec mAdd ext0 ⟨8, 0, 1, 6⟩).v 0xF = mAdd.v 0 % 2) ∧
    ((afterExec mAdd ext0 ⟨8, 0, 1, 6⟩).v 0 = mAdd.v 0 / 2) ∧
    ((afterExec mAdd ext0 ⟨8, 0, 1, 0xE⟩).v 0xF = mAdd.v 0 / 128) ∧
    ((afterExec mAdd ext0 ⟨8, 0, 1, 0xE⟩).v 0 = mAdd.v 0 * 2 % 256) :=
  shift_flag_semantics mAdd ext0 0 1 (by decide) (by decide) (by decide)

/-- C7 (amended): running the 00E0/1200 program, the run loop's break
condition never holds in any reachable state (PC alternates between 0x200
and 0x202, far below RAM_SIZE), so the loop never terminates; the Display
clear count after n cycles is (n + 1) / 2 — clear is called exactly once
per two-cycle loop iteration (on the CLS cycle, not on the jump cycle),
not once per cycle. -/
theorem clsJump_runs_forever (n : Nat) :
    ¬ runBreak (traceClsJump n).1 ∧ (traceClsJump n).2 = (n + 1) / 2 := by
  rw [traceClsJump_closed n]
  constructor
  · by_cases h : n % 2 = 0 <;> simp [h, runBreak] <;> decide
  · rfl

/-- C7 counterexample: after two cycles of the 00E0/1200 program the
Display clear has been called once, not twice as once-per-step-cycle
would require; the second cycle (the jump) performs no clear. -/
theorem clsJump_second_cycle_no_clear :
    (traceClsJump 1).2 = 1 ∧ (traceClsJump 2).2 = 1 ∧ (traceClsJump 2).2 ≠ 2 := by
  exact ⟨rfl, rfl, by decide⟩

/-- C8: one timer tick decrements the stored byte when it is positive and
leaves it unchanged at zero; hence the tick sequence is non-increasing,
strictly decreasing while positive, and constant once zero is reached
(values are naturals, so the counter never passes below zero). -/
theorem timer_tick_semantics (v n : Nat) :
    (Timer.tick v = if 0 < v then v - 1 else v) ∧
    (Timer.tick^[n + 1] v ≤ Timer.tick^[n] v) ∧
    (0 < Timer.tick^[n] v → Timer.tick^[n + 1] v = Timer.tick^[n] v - 1) ∧
    (Timer.tick^[n] v = 0 → Timer.tick^[n + 1] v = 0) := by
  have h1 := Timer.tick_iterate v n
  have h2 := Timer.tick_iterate v (n + 1)
  refine ⟨rfl, ?_, ?_, ?_⟩
  · rw [h1, h2]; omega
  · rw [h1, h2]; omega
  · rw [h1, h2]; omega

/-- C8 witness: from 5 the timer reaches 4 then 3 (strictly decreasing),
and from 0 it stays at 0. -/
theorem timer_tick_semantics_witness :
    (Timer.tick^[2] 5 ≤ Timer.tick^[1] 5) ∧
    (Timer.tick^[2] 5 = Timer.tick^[1] 5 - 1) ∧
    (Timer.tick^[1] 0 = 0) :=
  ⟨(timer_tick_semantics 5 1).2.1,
   (timer_tick_semantics 5 1).2.2.1 (by decide),
   (timer_tick_semantics 0 0).2.2.2 (by decide)⟩

theorem take_getD (l : List Nat) : ∀ n j, j < n → (l.take n).getD j 0 = l.getD j 0 := by
  induction l with
  | nil => intro n j _; simp
  | cons b rest ih =>
      intro n j hj
      match n, j with
      | 0, j => omega
      | n' + 1, 0 => simp
      | n' + 1, j' + 1 =>
          have hr := ih n' j' (by omega)
          simpa using hr

/-- C9: a load that copies n bytes (any successful read count, at most the
stream length and the remaining capacity) returns n, places the first n
stream bytes at 0x200..0x200+n-1 in order, and leaves every other cell —
including the font area below 0x200 — unchanged. -/
theorem load_copies_at_0x200 (buf : Nat → Nat) (data : List Nat) (n : Nat)
    (hn : n ≤ data.length) (hcap : n ≤ RAM_SIZE - HEAD_OF_PROGRAM) :
    ((chipLoad buf data n).1 = n) ∧
    (∀ j, j < n → (chipLoad buf data n).2 (HEAD_OF_PROGRAM + j) = data.getD j 0) ∧
    (∀ a, a < HEAD_OF_PROGRAM ∨ HEAD_OF_PROGRAM + n ≤ a →
      (chipLoad buf data n).2 a = buf a) := by
  have hlen : (data.take n).length = n := by
    simp [List.length_take]
    omega
  refine ⟨rfl, ?_, ?_⟩
  · intro j hj
    have hw := writeBytes_get (data.take n) buf HEAD_OF_PROGRAM j (by rw [hlen]; exact hj)
    have ht := take_getD data n j hj
    simp only [chipLoad, ramLoad]
    rw [hw, ht]
  · intro a ha
    have hw := writeBytes_frame (data.take n) buf HEAD_OF_PROGRAM a (by rw [hlen]; omega)
    simp only [chipLoad, ramLoad]
    rw [hw]

/-- C9 witness: loading the 3-byte stream [1, 2, 3] into empty RAM returns
3, places byte 2 at 0x201, and leaves address 0 (font area) unchanged. -/
theorem load_copies_witness :
    ((chipLoad zeros [1, 2, 3] 3).1 = 3) ∧
    ((chipLoad zeros [1, 2, 3] 3).2 (HEAD_OF_PROGRAM + 1) = [1, 2, 3].getD 1 0) ∧
    ((chipLoad zeros [1, 2, 3] 3).2 0 = zeros 0) := by
  have h := load_copies_at_0x200 zeros [1, 2, 3] 3 (by decide) (by decide)
  exact ⟨h.1, h.2.1 1 (by decide), h.2.2 0 (by decide)⟩

/-- C10: LD [I], Vx (Fx55) copies V0..Vx to memory I..I+x and changes no
other memory cell, no register and not I; LD Vx, [I] (Fx65) copies memory
I..I+x into V0..Vx and changes no higher register, no memory and not I. -/
theorem bulk_reg_copy (m : Machine) (ex : Ext) (x : Nat)
    (hx : x < 16) (hI : m.i + x < RAM_SIZE) :
    (∀ j, j ≤ x → (afterExec m ex ⟨0xF, x, 5, 5⟩).ram (m.i + j) = m.v j) ∧
    (∀ a, a < m.i ∨ m.i + x < a → (afterExec m ex ⟨0xF, x, 5, 5⟩).ram a = m.ram a) ∧
    ((afterExec m ex ⟨0xF, x, 5, 5⟩).i = m.i) ∧
    ((afterExec m ex ⟨0xF, x, 5, 5⟩).v = m.v) ∧
    (∀ j, j ≤ x → (afterExec m ex ⟨0xF, x, 6, 5⟩).v j = m.ram (m.i + j)) ∧
    (∀ j, x < j → (afterExec m ex ⟨0xF, x, 6, 5⟩).v j = m.v j) ∧
    ((afterExec m ex ⟨0xF, x, 6, 5⟩).i = m.i) ∧
    ((afterExec m ex ⟨0xF, x, 6, 5⟩).ram = m.ram) := by
  refine ⟨?_, ?_, ?_, ?_, ?_, ?_, ?_, ?_⟩
  · intro j hj
    simp only [afterExec, execute, execF, finish, applyCtl]
    norm_num
    exact storeRegs_at m.ram m.v m.i (x + 1) j (by omega)
  · intro a ha
    simp only [afterExec, execute, execF, finish, applyCtl]
    norm_num
    exact storeRegs_frame m.ram m.v m.i (x + 1) a (by omega)
  · simp [afterExec, execute, execF, finish, applyCtl]
  · simp [afterExec, execute, execF, finish, applyCtl]
  · intro j hj
    simp only [afterExec, execute, execF, finish, applyCtl]
    norm_num
    exact loadRegs_lt m.v m.ram m.i (x + 1) j (by omega)
  · intro j hj
    simp only [afterExec, execute, execF, finish, applyCtl]
    norm_num
    exact loadRegs_ge m.v m.ram m.i (x + 1) j (by omega)
  · simp [afterExec, execute, execF, finish, applyCtl]
  · simp [afterExec, execute, execF, finish, applyCtl]

/-- C10 witness: with V0..V2 = 11, 22, 33 and I = 768, Fx55 with x = 2
stores V1 at 769 and leaves address 0 alone; Fx65 with x = 2 loads V1
from 769 and leaves V5 alone. -/
theorem bulk_reg_copy_witness :
    ((afterExec mIdx ext0 ⟨0xF, 2, 5, 5⟩).ram (mIdx.i + 1) = mIdx.v 1) ∧
    ((afterExec mIdx ext0 ⟨0xF, 2, 5, 5⟩).ram 0 = mIdx.ram 0) ∧
    ((afterExec mIdx ext0 ⟨0xF, 2, 5, 5⟩).i = mIdx.i) ∧
    ((afterExec mIdx ext0 ⟨0xF, 2, 6, 5⟩).v 1 = mIdx.ram (mIdx.i + 1)) ∧
    ((afterExec mIdx ext0 ⟨0xF, 2, 6, 5⟩).v 5 = mIdx.v 5) := by
  have h := bulk_reg_copy mIdx ext0 2 (by decide) (by decide)
  exact ⟨h.1 1 (by decide), h.2.1 0 (by decide), h.2.2.1,
    h.2.2.2.2.1 1 (by decide), h.2.2.2.2.2.1 5 (by decide)⟩

end Chip8
